import Mathlib

/-!
Verification of the efficiency scoring and ranking engine of the
jobstats site (`src/app.py`).

The development shallowly embeds the scoring, aggregation, ranking and
name-resolution logic of `app.py` into Lean.  Machine floats are
modelled by `ℚ` (all arithmetic in the program is +, *, / on values
coming from the database, and every claim under study is about exact
rational identities, orderings or raised errors, for which `ℚ` is a
faithful abstraction).  Python runtime errors are modelled by an
explicit error type and `Except` / `Option` results, translated
statement by statement in the evaluation order of the source.

The `...Run` functions embed the code as it actually executes,
including the fact that the module never imports the name
`statistics` (lines 13-22 of `app.py`), so the score calculator
raises `NameError` at the `statistics.mean` call sites (lines 73 and
114); every claim is settled against this faithful layer.
`normalizeSingleRunState` additionally tracks the state of the
argument dict through the call, and `normalizeScorePure` is the
line-114 key expression as a term, used only inside the model of
`home`'s sort for membership facts that do not depend on key
values.
-/

namespace Doppler

/-- Runtime errors of the embedded Python fragments:
`ZeroDivisionError`, `NameError`, `KeyError`, `TypeError`. -/
inductive Err where
  | zeroDiv
  | nameError
  | keyError
  | typeError
deriving DecidableEq, Repr

/-- The module-level normalization configuration, set once at startup
(`app.py` lines 42-51): `normalize_by_score` starts `False` and
`ideal_score` starts `0`; both are changed only when the config file
enables score normalization. -/
structure Config where
  normalize_by_score : Bool
  ideal_score : ℚ
deriving DecidableEq, Repr

/-- Configuration when score normalization is disabled: the module
init leaves `normalize_by_score = False` and `ideal_score = 0`. -/
def cfgDisabled : Config := ⟨false, 0⟩

/-- Configuration when score normalization is enabled with
`ideal score = 2.0`. -/
def cfgEnabled2 : Config := ⟨true, 2⟩

/-- A usage-data row as the DB layer hands it to `app.py`: the numeric
fields read by `getScore` (`memuse`, `memreq`, `cputime`, `coresreq`,
`timeuse`, `timereq`), by `normalize` (`cpureq` instead of
`coresreq`), and by `home` (the per-component display scores `cores`,
`memory`, `tlimit`, and the entity name from `account` / `user` /
`owner`, modelled as the single field `name`).  The `total` field
models the `'total'` dict key, absent (`none`) on rows coming from the
DB and written by `normalize(..., all_scores=True)` at line 117. -/
structure Rec where
  memuse : ℚ
  memreq : ℚ
  cputime : ℚ
  coresreq : ℚ
  cpureq : ℚ
  timeuse : ℚ
  timereq : ℚ
  cores : ℚ
  memory : ℚ
  tlimit : ℚ
  name : String
  total : Option ℚ
deriving DecidableEq, Repr

/-- The names bound at module level by the import statements of
`app.py` (lines 13-22): `import sys`, `import time`,
`from configparser import ConfigParser`,
`from datetime import date, timedelta`,
`from difflib import SequenceMatcher`, `import pygal`,
`from flask import Flask, render_template, request, url_for,
redirect`, `import jobstats`.  The name `statistics` is not among
them, so evaluating `statistics.mean` raises `NameError`. -/
def moduleImportedNames : List String :=
  ["sys", "time", "ConfigParser", "date", "timedelta",
   "SequenceMatcher", "pygal", "Flask", "render_template", "request",
   "url_for", "redirect", "jobstats"]

/-- Whether the global name `statistics`, used at lines 73 and 114,
is bound at module level (Python name resolution over the imported
names; none of the other module-level bindings — `app`, `config`,
`db`, `username`, `password`, `host`, `normalize_scores_options`,
`normalize_by_score`, `ideal_score`, and the function names — is
called `statistics` either). -/
def moduleBindsStatistics : Bool := moduleImportedNames.contains "statistics"

theorem moduleBindsStatistics_false : moduleBindsStatistics = false := rfl

/-! ## Score calculator, faithful (`Run`) layer -/

/-- The single-data-point branch of `normalize` (`app.py` lines
108-114) as it executes: the three component ratios are computed first
(lines 110-112, each raising `ZeroDivisionError` on a zero
denominator, in source order), then line 114 evaluates
`statistics.mean(...) / ideal_score`; since `statistics` is not an
imported name this raises `NameError`.  The (unreachable) success
branch divides the mean by `ideal_score` unconditionally, raising
`ZeroDivisionError` when `ideal_score` is `0`. -/
def normalizeSingleRunCore (cfg : Config) (data : Rec) : Except Err ℚ :=
  if data.memreq = 0 then .error .zeroDiv else
  let memory := data.memuse / data.memreq
  if data.timereq = 0 then .error .zeroDiv else
  let time := data.timeuse / data.timereq
  if data.timeuse * data.cpureq = 0 then .error .zeroDiv else
  let cpu := data.cputime / (data.timeuse * data.cpureq)
  if moduleBindsStatistics then
    if cfg.ideal_score = 0 then .error .zeroDiv
    else .ok ((memory + time + cpu) / 3 / cfg.ideal_score)
  else .error .nameError

/-- The single-data-point branch of `normalize` with
`all_scores=False` (lines 120-121): returns the score. -/
def normalizeSingleRunVal (cfg : Config) (data : Rec) : Except Err ℚ :=
  normalizeSingleRunCore cfg data

/-- The single-data-point branch of `normalize` with
`all_scores=True` (lines 116-118): stores the score under the
`'total'` key of the input dict and returns that same dict. -/
def normalizeSingleRunAS (cfg : Config) (data : Rec) : Except Err Rec :=
  (normalizeSingleRunCore cfg data).map
    (fun s => { data with total := some s })

/-- `getScore` (`app.py` lines 54-85) as it executes, for the
total-score result: lines 68-70 compute the memory, cpu and time
ratios in source order (`score_cpu` divides by
`coresreq * timeuse`), line 73 evaluates `statistics.mean(...)`,
which raises `NameError` because `statistics` is not imported; the
(unreachable) remainder picks the divisor (1, or `ideal_score` when
normalization is enabled) and returns `(numerator / denominator) *
100`. -/
def getScoreRun (cfg : Config) (data : Rec) : Except Err ℚ :=
  if data.memreq = 0 then .error .zeroDiv else
  let score_memory := data.memuse / data.memreq
  if data.coresreq * data.timeuse = 0 then .error .zeroDiv else
  let score_cpu := data.cputime / (data.coresreq * data.timeuse)
  if data.timereq = 0 then .error .zeroDiv else
  let score_time := data.timeuse / data.timereq
  if moduleBindsStatistics then
    let numerator := (score_memory + score_cpu + score_time) / 3
    let denominator : ℚ := if cfg.normalize_by_score then cfg.ideal_score else 1
    if denominator = 0 then .error .zeroDiv
    else .ok (numerator / denominator * 100)
  else .error .nameError

/-- The single-data-point branch of `normalize` (lines 108-121)
together with the final state of its argument: the pair (outcome,
state of the `data` dict when the call returns or raises).  The
guards and outcome are exactly those of `normalizeSingleRunCore`
(proved below).  Assignments at lines 110-114 bind the locals
`memory`, `time`, `cpu`, `score` and do not touch `data`; the only
statement that writes to `data` is line 117
(`data['total'] = score`), in the `all_scores` branch, and it lies
beyond the line-114 `statistics.mean` evaluation, so it is reachable
only in the dead `moduleBindsStatistics` branch.  In that branch the
first component carries the computed score (the function would
return the dict itself, i.e. the second component). -/
def normalizeSingleRunState (cfg : Config) (data : Rec)
    (all_scores : Bool) : Except Err ℚ × Rec :=
  if data.memreq = 0 then (.error .zeroDiv, data) else
  let memory := data.memuse / data.memreq
  if data.timereq = 0 then (.error .zeroDiv, data) else
  let time := data.timeuse / data.timereq
  if data.timeuse * data.cpureq = 0 then (.error .zeroDiv, data) else
  let cpu := data.cputime / (data.timeuse * data.cpureq)
  if moduleBindsStatistics then
    if cfg.ideal_score = 0 then (.error .zeroDiv, data)
    else
      if all_scores then
        (.ok ((memory + time + cpu) / 3 / cfg.ideal_score),
         { data with
             total := some ((memory + time + cpu) / 3 / cfg.ideal_score) })
      else (.ok ((memory + time + cpu) / 3 / cfg.ideal_score), data)
  else (.error .nameError, data)

/-- The sort-key expression of line 114,
`statistics.mean([memory, time, cpu]) / ideal_score`, as a total
function on `ℚ`.  In real execution this line always raises
`NameError` (see C3): the function exists only as the key expression
of `home`'s sort in `homeSorted` below, whose role is limited to the
score-independent membership facts of C8 (which records pass the
line 376-377 eligibility filter); no theorem equates it to a value
the program returns. -/
def normalizeScorePure (cfg : Config) (data : Rec) : ℚ :=
  (data.memuse / data.memreq + data.timeuse / data.timereq
    + data.cputime / (data.timeuse * data.cpureq)) / 3 / cfg.ideal_score

/-! ## Aggregator (`normalize` on a date-keyed mapping, lines 123-148) -/

/-- A Python dict key as it occurs in the aggregation code: either a
date string supplied by the DB layer, or the `datetime.date` class
object — which is what the expression `data[date]` at line 129
actually uses as a key, `date` being the class imported at line 16,
not the loop variable `day`. -/
inductive PyKey where
  | str (s : String)
  | dateClass
deriving DecidableEq, Repr

/-- Dict lookup: `m[k]`, `none` meaning `KeyError`. -/
def pyDictGet (m : List (PyKey × Rec)) (k : PyKey) : Option Rec :=
  (m.find? (fun p => p.1 = k)).map (fun p => p.2)

/-- The `by_date=True` branch of `normalize` (lines 126-131) as it
executes: `for day in data: scores[day] = normalize(data[date], ...)`.
Each iteration first evaluates `data[date]` — the subscript uses the
`datetime.date` class, not the loop key `day`, so it raises `KeyError`
unless the class object itself is a key of the mapping; on a (never
occurring) hit, the current date's slot would receive the score of
that looked-up record. -/
def byDateRun (cfg : Config) (data : List (PyKey × Rec)) :
    Except Err (List (PyKey × ℚ)) :=
  data.mapM (fun p =>
    match pyDictGet data PyKey.dateClass with
    | none => .error .keyError
    | some r => (normalizeSingleRunVal cfg r).map (fun v => (p.1, v)))

/-- The `data_total` accumulator dict initialized at lines 135-142:
six numeric fields, all `0`. -/
def dataTotal0 : List (String × ℚ) :=
  [("memuse", 0), ("memreq", 0), ("timeuse", 0), ("timereq", 0),
   ("cputime", 0), ("cpureq", 0)]

/-- The inner loop of the summation branch (lines 144-146):
`for val in day: data_total[val] += day[val]` where `day` is a *key*
of the mapping, i.e. a date string, so `val` ranges over its
characters.  The augmented assignment first loads
`data_total[val]` — a one-character string is never one of the six
field names, so this raises `KeyError`; were the load ever to
succeed, the subsequent `day[val]` (a string subscripted by a string)
would raise `TypeError`. -/
def innerSumRun (fields : List (String × ℚ)) :
    List Char → Except Err (List (String × ℚ))
  | [] => .ok fields
  | c :: _ =>
    match fields.lookup (String.singleton c) with
    | none => .error .keyError
    | some _ => .error .typeError

/-- The outer loop of the summation branch (lines 144-146):
`for day in data` iterates the keys of the mapping.  A `str` key runs
the inner character loop; the `datetime.date` class object is not
iterable, so a `dateClass` key would raise `TypeError`. -/
def totalSumRun (acc : List (String × ℚ)) :
    List (PyKey × Rec) → Except Err (List (String × ℚ))
  | [] => .ok acc
  | (k, _) :: rest =>
    match k with
    | .str s => do
      let acc' ← innerSumRun acc s.data
      totalSumRun acc' rest
    | .dateClass => .error .typeError

/-- Rebuilds a usage record from the `data_total` dict for the
recursive `normalize(data_total, ...)` call at line 148.  The dict
has exactly the six keys of `dataTotal0`; fields `normalize` never
reads (`coresreq` and the display fields) are filled with `0`, and
the dict has no `'total'` key. -/
def recOfFields (fs : List (String × ℚ)) : Rec :=
  { memuse := ((fs.lookup "memuse").getD 0)
    memreq := ((fs.lookup "memreq").getD 0)
    cputime := ((fs.lookup "cputime").getD 0)
    coresreq := 0
    cpureq := ((fs.lookup "cpureq").getD 0)
    timeuse := ((fs.lookup "timeuse").getD 0)
    timereq := ((fs.lookup "timereq").getD 0)
    cores := 0, memory := 0, tlimit := 0, name := "", total := none }

/-- The summation (TOTAL) branch of `normalize` (lines 133-148) as it
executes: run the summation loops over the date-keyed mapping, then
recursively score the accumulated record. -/
def totalRun (cfg : Config) (data : List (PyKey × Rec)) : Except Err ℚ := do
  let acc ← totalSumRun dataTotal0 data
  normalizeSingleRunVal cfg (recOfFields acc)

/-! ## Ranker -/

/-- `getTop` (`app.py` lines 152-174): the entity names returned by
the DB are sorted with `sorted(all_data_points, key=key_func)[:num]`,
where `key_func` is a *two-parameter* lambda
(`lambda user, since: ...`).  `sorted` calls the key function with a
single argument, so the first key evaluation raises `TypeError`; on
an empty list the key is never called and the empty list is
returned. -/
def getTopRun (all_data_points : List String) (num : ℕ) :
    Except Err (List String) :=
  match all_data_points with
  | [] => .ok (List.take num [])
  | _ :: _ => .error .typeError

/-- The eligibility filter of `home` (lines 376-377): a row is kept
when `data['memreq'] and data['cpureq'] and data['timereq']` is
truthy, i.e. when all three requested quantities are nonzero. -/
def eligibleRec (r : Rec) : Bool :=
  decide (r.memreq ≠ 0) && decide (r.cpureq ≠ 0) && decide (r.timereq ≠ 0)

/-- One displayed row of the `home` ranking table (lines 383-411):
1-based rank, entity name, the three component display scores with
`'-'` (modelled `none`) standing for a zero value, and
`total = int(normalize(i))`. -/
structure RankRow where
  rank : ℕ
  name : String
  cores : Option ℚ
  memory : Option ℚ
  tlimit : Option ℚ
  total : ℤ
deriving DecidableEq, Repr

/-- Python `int()` on a float/rational: truncation toward zero. -/
def pyInt (q : ℚ) : ℤ := if 0 ≤ q then ⌊q⌋ else ⌈q⌉

/-- Builds the row appended at lines 393-411 for record `r` when the
accumulator already holds `k` rows (`len(account_ranks)+1 = k+1`). -/
def rankRowOf (cfg : Config) (k : ℕ) (r : Rec) : RankRow :=
  { rank := k + 1
    name := r.name
    cores := if r.cores ≠ 0 then some r.cores else none
    memory := if r.memory ≠ 0 then some r.memory else none
    tlimit := if r.tlimit ≠ 0 then some r.tlimit else none
    total := pyInt (normalizeScorePure cfg r) }

/-- The row-building loop of `home` (lines 385-411): each appended
row gets rank `len(account_ranks) + 1`, i.e. sequential 1-based
numbering in list order. -/
def rankRows (cfg : Config) (k : ℕ) : List Rec → List RankRow
  | [] => []
  | r :: rest => rankRowOf cfg k r :: rankRows cfg (k + 1) rest

/-- The rows of `home`'s sort (line 381),
`sorted(job_data, key=lambda x: normalize(x))`, applied after the
eligibility filter of lines 376-377, modelled by the stable
`List.insertionSort` on the line-114 key expression.  In real
execution the first key evaluation raises (see C3/C6), so this
definition is used only for facts that are invariant under the key
values — which records enter `job_data` (a pre-scoring, data-level
filter) and hence can appear in any output: `homeSorted` is a
permutation of `l.filter eligibleRec` whatever the keys. -/
def homeSorted (cfg : Config) (l : List Rec) : List Rec :=
  List.insertionSort
    (fun a b => normalizeScorePure cfg a ≤ normalizeScorePure cfg b)
    (l.filter eligibleRec)

/-- The rows `home` would number (lines 383-411) from the sorted
list; used only for the key-value-independent membership facts of
C8 (every output row stems from a record that passed the filter). -/
def homeRankPure (cfg : Config) (l : List Rec) : List RankRow :=
  rankRows cfg 0 (homeSorted cfg l)

/-- The sort-key evaluations of `home` line 381: CPython's `sorted`
evaluates the key `lambda x: normalize(x)` once per element, in list
order, before comparing; any raised error aborts the request. -/
def homeKeyRun (cfg : Config) (rs : List Rec) : Except Err (List (Rec × ℚ)) :=
  rs.mapM (fun r => do
    let s ← normalizeSingleRunVal cfg r
    pure (r, s))

/-- The ranking request of `home` as it actually executes: evaluate
the sort keys over the eligible rows, sort, then build the displayed
rows — line 408 calls `normalize(i)` again for each row's total. -/
def homeRankRun (cfg : Config) (l : List Rec) : Except Err (List RankRow) := do
  let keyed ← homeKeyRun cfg (l.filter eligibleRec)
  let sortedRows := List.insertionSort (fun a b => a.2 ≤ b.2) keyed
  let rows ← sortedRows.mapM (fun p => do
    let t ← normalizeSingleRunVal cfg p.1
    pure (p.1, t))
  pure (rankRows cfg 0 (rows.map (fun p => p.1)))

/-- Binding an `Except` error short-circuits. -/
theorem errorBind {γ δ : Type} (e : Err) (g : γ → Except Err δ) :
    (Except.error e >>= g) = Except.error e := rfl

/-- `mapM` over `Except` fails immediately when the first element
fails. -/
theorem mapMHeadError {β γ : Type} (f : β → Except Err γ) (x : β)
    (xs : List β) (e : Err) (h : f x = .error e) :
    (x :: xs).mapM f = .error e := by
  show (f x >>= fun b => List.mapM.loop f xs [b]) = .error e
  rw [h]
  rfl

/-- `homeKeyRun` fails whenever the first element's score raises. -/
theorem homeKeyRun_cons_error (cfg : Config) (x : Rec) (xs : List Rec)
    (e : Err) (h : normalizeSingleRunVal cfg x = .error e) :
    homeKeyRun cfg (x :: xs) = .error e := by
  apply mapMHeadError
  rw [h]
  rfl

/-- `homeRankRun` fails whenever its key evaluation fails. -/
theorem homeRankRun_error (cfg : Config) (l : List Rec) (e : Err)
    (h : homeKeyRun cfg (l.filter eligibleRec) = .error e) :
    homeRankRun cfg l = .error e := by
  show (homeKeyRun cfg (l.filter eligibleRec) >>= fun keyed => _) = _
  rw [h]
  rfl

/-! ## Concrete records used by the closed counterexamples and
witnesses -/

/-- An eligible record with all three component ratios `1/2`
(for both the `coresreq` and the `cpureq` reading of the cpu
denominator). -/
def recGood : Rec :=
  { memuse := 1, memreq := 2, cputime := 1, coresreq := 2, cpureq := 2,
    timeuse := 1, timereq := 2, cores := 1, memory := 1, tlimit := 1,
    name := "good", total := none }

/-- A record passing the eligibility filter of `home` whose cpu
denominator `timeuse * cpureq` is zero (`timeuse = 0`). -/
def recBad : Rec :=
  { memuse := 0, memreq := 1, cputime := 5, coresreq := 1, cpureq := 1,
    timeuse := 0, timereq := 1, cores := 0, memory := 0, tlimit := 0,
    name := "bad", total := none }

/-- An eligible record with all component ratios `40` (normalized
score `20` under `cfgEnabled2`). -/
def recHi : Rec :=
  { memuse := 40, memreq := 1, cputime := 1600, coresreq := 1, cpureq := 1,
    timeuse := 40, timereq := 1, cores := 1, memory := 1, tlimit := 1,
    name := "hi", total := none }

/-- An eligible record with all component ratios `20` (normalized
score `10` under `cfgEnabled2`). -/
def recLo : Rec :=
  { memuse := 20, memreq := 1, cputime := 400, coresreq := 1, cpureq := 1,
    timeuse := 20, timereq := 1, cores := 1, memory := 1, tlimit := 1,
    name := "lo", total := none }

/-- A record with `memreq = 0`, ineligible for ranking. -/
def recZeroReq : Rec :=
  { memuse := 3, memreq := 0, cputime := 2, coresreq := 1, cpureq := 1,
    timeuse := 1, timereq := 1, cores := 1, memory := 1, tlimit := 1,
    name := "zeroreq", total := none }

example : normalizeSingleRunVal cfgEnabled2 recGood = .error .nameError := by
  norm_num [normalizeSingleRunVal, normalizeSingleRunCore,
    moduleBindsStatistics_false, cfgEnabled2, recGood]
example : normalizeSingleRunVal cfgEnabled2 recBad = .error .zeroDiv := by
  norm_num [normalizeSingleRunVal, normalizeSingleRunCore, cfgEnabled2, recBad]
example : getScoreRun cfgDisabled recGood = .error .nameError := by
  norm_num [getScoreRun, moduleBindsStatistics_false, cfgDisabled, recGood]
example : totalRun cfgDisabled [] = .error .zeroDiv := rfl
example : byDateRun cfgEnabled2 [(PyKey.str "1/1/18", recGood)] = .error .keyError := rfl
example : byDateRun cfgEnabled2 [] = .ok [] := rfl
example : normalizeSingleRunState cfgEnabled2 recGood true
    = (.error .nameError, recGood) := by
  norm_num [normalizeSingleRunState, moduleBindsStatistics_false,
    cfgEnabled2, recGood]
example : normalizeSingleRunState cfgEnabled2 recBad false
    = (.error .zeroDiv, recBad) := by
  norm_num [normalizeSingleRunState, cfgEnabled2, recBad]

/-! ## Claim C3 -/

/-- C3 (confirmed): for every usage record whose three component
divisions are defined (all denominators nonzero), both `getScore` and
the single-record path of `normalize` raise `NameError` instead of
returning a score, because the name `statistics` used at lines 73 and
114 is never imported by the module. -/
theorem claim3_theorem (cfg : Config) (r : Rec)
    (hm : r.memreq ≠ 0) (ht : r.timereq ≠ 0)
    (hcore : r.coresreq * r.timeuse ≠ 0) (hcpu : r.timeuse * r.cpureq ≠ 0) :
    moduleBindsStatistics = false ∧
    getScoreRun cfg r = .error .nameError ∧
    normalizeSingleRunVal cfg r = .error .nameError ∧
    normalizeSingleRunAS cfg r = .error .nameError := by
  refine ⟨rfl, ?_, ?_, ?_⟩ <;>
    simp [getScoreRun, normalizeSingleRunVal, normalizeSingleRunAS,
      normalizeSingleRunCore, moduleBindsStatistics_false, Except.map,
      hm, ht, hcore, hcpu]

/-- Witness for C3 at the concrete record `recGood`. -/
theorem claim3_witness :
    recGood.memreq ≠ 0 ∧ recGood.timereq ≠ 0 ∧
    recGood.coresreq * recGood.timeuse ≠ 0 ∧
    recGood.timeuse * recGood.cpureq ≠ 0 ∧
    (moduleBindsStatistics = false ∧
     getScoreRun cfgEnabled2 recGood = .error .nameError ∧
     normalizeSingleRunVal cfgEnabled2 recGood = .error .nameError ∧
     normalizeSingleRunAS cfgEnabled2 recGood = .error .nameError) := by
  have h1 : recGood.memreq ≠ 0 := by norm_num [recGood]
  have h2 : recGood.timereq ≠ 0 := by norm_num [recGood]
  have h3 : recGood.coresreq * recGood.timeuse ≠ 0 := by norm_num [recGood]
  have h4 : recGood.timeuse * recGood.cpureq ≠ 0 := by norm_num [recGood]
  exact ⟨h1, h2, h3, h4, claim3_theorem cfgEnabled2 recGood h1 h2 h3 h4⟩

/-! ## Claim C2 -/

/-- C2 (counterexample): at `recGood`, whose three ratios are all
`1/2`, with normalization disabled the claim says both `getScore`
and the single-record path of `normalize` return
`mean(ratios) * 100 = 50`; in real execution neither returns any
value — both raise `NameError` at the `statistics.mean` call
(lines 73 and 114). -/
theorem claim2_counterexample :
    getScoreRun cfgDisabled recGood = Except.error Err.nameError ∧
    normalizeSingleRunVal cfgDisabled recGood = Except.error Err.nameError ∧
    getScoreRun cfgDisabled recGood ≠ Except.ok 50 ∧
    normalizeSingleRunVal cfgDisabled recGood ≠ Except.ok 50 := by
  have h1 : getScoreRun cfgDisabled recGood = Except.error Err.nameError := by
    norm_num [getScoreRun, recGood, moduleBindsStatistics_false]
  have h2 : normalizeSingleRunVal cfgDisabled recGood
      = Except.error Err.nameError := by
    norm_num [normalizeSingleRunVal, normalizeSingleRunCore, recGood,
      moduleBindsStatistics_false]
  refine ⟨h1, h2, ?_, ?_⟩
  · rw [h1]; exact fun hc => Except.noConfusion hc
  · rw [h2]; exact fun hc => Except.noConfusion hc

/-- C2 (amended): neither entry point ever returns a score.  For
every usage record with all denominators nonzero and every
normalization configuration — disabled or enabled, any
`ideal_score` — `getScore` raises `NameError` at line 73 and the
single-record path of `normalize` raises `NameError` at line 114;
in particular no call returns `mean(ratios) * 100`,
`mean(ratios) * 100 / 2.0`, or any other value. -/
theorem claim2_theorem (cfg : Config) (r : Rec)
    (hm : r.memreq ≠ 0) (ht : r.timereq ≠ 0)
    (hcore : r.coresreq * r.timeuse ≠ 0) (hcpu : r.timeuse * r.cpureq ≠ 0) :
    getScoreRun cfg r = .error .nameError ∧
    normalizeSingleRunVal cfg r = .error .nameError ∧
    (∀ v : ℚ, getScoreRun cfg r ≠ .ok v) ∧
    (∀ v : ℚ, normalizeSingleRunVal cfg r ≠ .ok v) := by
  have h1 : getScoreRun cfg r = .error .nameError := by
    simp [getScoreRun, moduleBindsStatistics_false, hm, ht, hcore]
  have h2 : normalizeSingleRunVal cfg r = .error .nameError := by
    simp [normalizeSingleRunVal, normalizeSingleRunCore,
      moduleBindsStatistics_false, hm, ht, hcpu]
  refine ⟨h1, h2, fun v => ?_, fun v => ?_⟩
  · rw [h1]; exact fun hc => Except.noConfusion hc
  · rw [h2]; exact fun hc => Except.noConfusion hc

/-- Witness for C2's amended theorem at `recGood` with normalization
disabled (the configuration of the claim's divisor-1 case). -/
theorem claim2_witness :
    recGood.memreq ≠ 0 ∧ recGood.timereq ≠ 0 ∧
    recGood.coresreq * recGood.timeuse ≠ 0 ∧
    recGood.timeuse * recGood.cpureq ≠ 0 ∧
    (getScoreRun cfgDisabled recGood = .error .nameError ∧
     normalizeSingleRunVal cfgDisabled recGood = .error .nameError ∧
     (∀ v : ℚ, getScoreRun cfgDisabled recGood ≠ .ok v) ∧
     (∀ v : ℚ, normalizeSingleRunVal cfgDisabled recGood ≠ .ok v)) := by
  have h1 : recGood.memreq ≠ 0 := by norm_num [recGood]
  have h2 : recGood.timereq ≠ 0 := by norm_num [recGood]
  have h3 : recGood.coresreq * recGood.timeuse ≠ 0 := by norm_num [recGood]
  have h4 : recGood.timeuse * recGood.cpureq ≠ 0 := by norm_num [recGood]
  exact ⟨h1, h2, h3, h4, claim2_theorem cfgDisabled recGood h1 h2 h3 h4⟩

/-! ## Claim C10 -/

/-- C10 (confirmed): the single-record score path never mutates its
argument, under either flag value and any configuration.  The only
statement that writes to the argument dict — line 117,
`data['total'] = score`, in the `all_scores=True` branch — lies
beyond the line-114 `statistics.mean` evaluation, which always
raises `NameError` because `statistics` is not a module-level name;
so no execution reaches the write and the argument's final state
equals its initial state on every call (a zero denominator raises
even earlier, equally before any write).  The second conjunct ties
the state-tracking model to the plain `Run` model: the outcome is
exactly that of `normalizeSingleRunCore`. -/
theorem claim10_theorem (cfg : Config) (data : Rec) (all_scores : Bool) :
    (normalizeSingleRunState cfg data all_scores).2 = data ∧
    (normalizeSingleRunState cfg data all_scores).1
      = normalizeSingleRunCore cfg data := by
  constructor
  · unfold normalizeSingleRunState
    simp only [moduleBindsStatistics_false, Bool.false_eq_true, if_false]
    split_ifs <;> rfl
  · unfold normalizeSingleRunState normalizeSingleRunCore
    split_ifs <;> rfl

/-! ## Claim C7 -/

/-- C7 (counterexample): aggregating the empty mapping in TOTAL mode
does not return any "not yet comparable" sentinel value — the call
raises (`ZeroDivisionError` from `0/0` on the all-zero summed
record), so there is no `ok` result at all. -/
theorem claim7_counterexample :
    ¬ ∃ v : ℚ, totalRun cfgDisabled [] = Except.ok v := by
  rintro ⟨v, hv⟩
  rw [show totalRun cfgDisabled [] = Except.error Err.zeroDiv from rfl] at hv
  exact Except.noConfusion hv

/-- C7 (amended): aggregating the empty mapping in BY_DATE mode
returns the empty mapping, and aggregating it in TOTAL mode raises
`ZeroDivisionError` (the summed record is all-zero, so line 110
computes `0 / 0`) rather than returning a sentinel. -/
theorem claim7_theorem (cfg : Config) :
    byDateRun cfg [] = .ok [] ∧ totalRun cfg [] = .error .zeroDiv :=
  ⟨rfl, rfl⟩

/-! ## Claim C4 -/

/-- On a mapping none of whose keys is the `datetime.date` class
object (the DB layer only ever supplies date strings), the lookup
`data[date]` of line 129 finds nothing. -/
theorem pyDictGet_dateClass_eq_none (data : List (PyKey × Rec))
    (hk : ∀ p ∈ data, p.1 ≠ PyKey.dateClass) :
    pyDictGet data PyKey.dateClass = none := by
  unfold pyDictGet
  rw [List.find?_eq_none.mpr]
  · rfl
  · intro p hp
    simpa using hk p hp

/-- C4 (code bug): on any nonempty date-keyed mapping whose keys are
the DB layer's date strings, BY_DATE aggregation raises `KeyError`
instead of scoring each date's own record: line 129 subscripts
`data[date]`, using the `datetime.date` class imported at line 16
rather than the loop variable `day`. -/
theorem claim4_theorem (cfg : Config) (data : List (PyKey × Rec))
    (hne : data ≠ []) (hk : ∀ p ∈ data, p.1 ≠ PyKey.dateClass) :
    byDateRun cfg data = .error .keyError := by
  obtain ⟨p, rest, rfl⟩ := List.exists_cons_of_ne_nil hne
  have hfind := pyDictGet_dateClass_eq_none (p :: rest) hk
  unfold byDateRun
  apply mapMHeadError
  rw [hfind]

/-- Witness for C4 at the one-day mapping with key `"1/1/18"`. -/
theorem claim4_witness :
    ([(PyKey.str "1/1/18", recGood)] : List (PyKey × Rec)) ≠ [] ∧
    (∀ p ∈ ([(PyKey.str "1/1/18", recGood)] : List (PyKey × Rec)),
       p.1 ≠ PyKey.dateClass) ∧
    byDateRun cfgEnabled2 [(PyKey.str "1/1/18", recGood)]
      = .error .keyError := by
  have h1 : ([(PyKey.str "1/1/18", recGood)] : List (PyKey × Rec)) ≠ [] := by
    simp
  have h2 : ∀ p ∈ ([(PyKey.str "1/1/18", recGood)] : List (PyKey × Rec)),
      p.1 ≠ PyKey.dateClass := by simp
  exact ⟨h1, h2, claim4_theorem cfgEnabled2 _ h1 h2⟩

/-! ## Claim C5 -/

/-- A one-character string is none of the six field names of the
`data_total` dict, so the load `data_total[val]` raises `KeyError`. -/
theorem dataTotal0_lookup_singleton (c : Char) :
    dataTotal0.lookup (String.singleton c) = none := by
  have hne : ∀ s : String, s.length ≠ 1 → (String.singleton c == s) = false := by
    intro s hs
    rw [beq_eq_false_iff_ne]
    intro he
    rw [← he] at hs
    exact hs rfl
  simp [dataTotal0, List.lookup, hne "memuse" (by decide),
    hne "memreq" (by decide), hne "timeuse" (by decide),
    hne "timereq" (by decide), hne "cputime" (by decide),
    hne "cpureq" (by decide)]

/-- C5 (code bug): on any nonempty date-keyed mapping whose keys are
nonempty date strings, TOTAL aggregation raises `KeyError` instead of
summing fields: `for day in data` iterates the mapping's *keys*, so
the inner loop iterates the characters of a date string and
`data_total[val] += day[val]` first loads `data_total` at a
one-character key, which does not exist. -/
theorem claim5_theorem (cfg : Config) (data : List (PyKey × Rec))
    (hne : data ≠ [])
    (hk : ∀ p ∈ data, ∃ s, p.1 = PyKey.str s ∧ s ≠ "") :
    totalRun cfg data = .error .keyError := by
  obtain ⟨⟨k, r⟩, rest, rfl⟩ := List.exists_cons_of_ne_nil hne
  obtain ⟨s, hks, hs0⟩ := hk (k, r) (List.mem_cons_self _ _)
  simp only at hks
  subst hks
  have hd : ∃ c cs, s.data = c :: cs := by
    cases h : s.data with
    | nil => exact absurd (String.ext h) hs0
    | cons c cs => exact ⟨c, cs, rfl⟩
  obtain ⟨c, cs, hdata⟩ := hd
  have hinner : innerSumRun dataTotal0 s.data = .error .keyError := by
    rw [hdata]
    simp only [innerSumRun, dataTotal0_lookup_singleton c]
  have hsum : totalSumRun dataTotal0 ((PyKey.str s, r) :: rest)
      = .error .keyError := by
    simp only [totalSumRun]
    rw [hinner]
    rfl
  unfold totalRun
  rw [hsum]
  rfl

/-- Witness for C5 at the one-day mapping with key `"1/1/18"`. -/
theorem claim5_witness :
    ([(PyKey.str "1/1/18", recGood)] : List (PyKey × Rec)) ≠ [] ∧
    (∀ p ∈ ([(PyKey.str "1/1/18", recGood)] : List (PyKey × Rec)),
       ∃ s, p.1 = PyKey.str s ∧ s ≠ "") ∧
    totalRun cfgEnabled2 [(PyKey.str "1/1/18", recGood)]
      = .error .keyError := by
  have h1 : ([(PyKey.str "1/1/18", recGood)] : List (PyKey × Rec)) ≠ [] := by
    simp
  have h2 : ∀ p ∈ ([(PyKey.str "1/1/18", recGood)] : List (PyKey × Rec)),
      ∃ s, p.1 = PyKey.str s ∧ s ≠ "" := by
    intro p hp
    simp at hp
    subst hp
    exact ⟨"1/1/18", rfl, by simp⟩
  exact ⟨h1, h2, claim5_theorem cfgEnabled2 _ h1 h2⟩

/-! ## Claim C6 -/

/-- Every single-record scoring call fails: either a denominator is
zero (`ZeroDivisionError`, lines 110-112) or — with all divisions
defined — the `statistics.mean` call raises `NameError`
(line 114). -/
theorem normalizeSingleRunVal_isError (cfg : Config) (r : Rec) :
    ∃ e, normalizeSingleRunVal cfg r = .error e := by
  unfold normalizeSingleRunVal normalizeSingleRunCore
  simp only [moduleBindsStatistics_false, Bool.false_eq_true, if_false]
  split_ifs <;> exact ⟨_, rfl⟩

/-- C6 (counterexample): the request `home([recBad, recGood])` — one
record with a zero cpu denominator alongside one fully scoreable
record — produces no ranking at all: nothing is excluded and the
whole request errors. -/
theorem claim6_counterexample :
    ¬ ∃ rows, homeRankRun cfgEnabled2 [recBad, recGood] = Except.ok rows := by
  have hfilter : ([recBad, recGood].filter eligibleRec)
      = [recBad, recGood] := by
    norm_num [eligibleRec, recBad, recGood, List.filter]
  have hbad : normalizeSingleRunVal cfgEnabled2 recBad
      = .error .zeroDiv := by
    norm_num [normalizeSingleRunVal, normalizeSingleRunCore, recBad]
  have hrun : homeRankRun cfgEnabled2 [recBad, recGood]
      = Except.error Err.zeroDiv := by
    apply homeRankRun_error
    rw [hfilter]
    exact homeKeyRun_cons_error _ _ _ _ hbad
  rintro ⟨rows, h⟩
  rw [hrun] at h
  exact Except.noConfusion h

/-- C6 (amended): a zero cpu denominator makes the score calculator
raise `ZeroDivisionError` — an explicit error, never a silent 0 or
infinity — but nothing recovers it at the aggregate/rank boundary:
whenever the eligible set of a `home` ranking request is nonempty
(in particular when it contains such a bad record), the whole request
errors instead of excluding the affected entity. -/
theorem claim6_theorem (cfg : Config) (r : Rec) (l : List Rec)
    (hm : r.memreq ≠ 0) (ht : r.timereq ≠ 0) (hcp : r.cpureq ≠ 0)
    (hc : r.timeuse * r.cpureq = 0) (hmem : r ∈ l) :
    normalizeSingleRunVal cfg r = .error .zeroDiv ∧
    ∃ e, homeRankRun cfg l = .error e := by
  constructor
  · simp [normalizeSingleRunVal, normalizeSingleRunCore, hm, ht, hc]
  · have helig : eligibleRec r = true := by
      simp [eligibleRec, hm, hcp, ht]
    have hmemf : r ∈ l.filter eligibleRec := List.mem_filter.mpr ⟨hmem, helig⟩
    have hne : l.filter eligibleRec ≠ [] := List.ne_nil_of_mem hmemf
    obtain ⟨x, rest, hx⟩ := List.exists_cons_of_ne_nil hne
    obtain ⟨e, he⟩ := normalizeSingleRunVal_isError cfg x
    refine ⟨e, homeRankRun_error cfg l e ?_⟩
    rw [hx]
    exact homeKeyRun_cons_error _ _ _ _ he

/-- Witness for C6's amended theorem at `recBad` in the singleton
request `[recBad]`. -/
theorem claim6_witness :
    recBad.memreq ≠ 0 ∧ recBad.timereq ≠ 0 ∧ recBad.cpureq ≠ 0 ∧
    recBad.timeuse * recBad.cpureq = 0 ∧ recBad ∈ [recBad] ∧
    (normalizeSingleRunVal cfgEnabled2 recBad = .error .zeroDiv ∧
     ∃ e, homeRankRun cfgEnabled2 [recBad] = .error e) := by
  have h1 : recBad.memreq ≠ 0 := by norm_num [recBad]
  have h2 : recBad.timereq ≠ 0 := by norm_num [recBad]
  have h3 : recBad.cpureq ≠ 0 := by norm_num [recBad]
  have h4 : recBad.timeuse * recBad.cpureq = 0 := by norm_num [recBad]
  have h5 : recBad ∈ [recBad] := List.mem_singleton.mpr rfl
  exact ⟨h1, h2, h3, h4, h5,
    claim6_theorem cfgEnabled2 recBad [recBad] h1 h2 h3 h4 h5⟩

/-! ## Claim C1 -/

/-- A `home` request whose eligibility filter leaves nothing
produces the empty ranking: with nothing to score, no key is
evaluated and the loops build no row. -/
theorem homeRankRun_of_filter_nil (cfg : Config) (l : List Rec)
    (h : l.filter eligibleRec = []) : homeRankRun cfg l = Except.ok [] := by
  unfold homeRankRun
  rw [h]
  rfl

/-- C1 (counterexample): at the two-record collection
`[recHi, recLo]` — two eligible records with distinct scores, where
the claim requires `home` to return a two-row ranking ordered
descending by score — the real `home` raises `NameError` at the
first sort-key evaluation (line 381 calling line 114) and returns no
ranking at all, so no ordering, tie-break or rank assignment is
exhibited. -/
theorem claim1_counterexample :
    homeRankRun cfgEnabled2 [recHi, recLo] = Except.error Err.nameError ∧
    ¬ ∃ rows, homeRankRun cfgEnabled2 [recHi, recLo] = Except.ok rows := by
  have hfilter : ([recHi, recLo].filter eligibleRec) = [recHi, recLo] := by
    norm_num [eligibleRec, recHi, recLo, List.filter]
  have hhi : normalizeSingleRunVal cfgEnabled2 recHi
      = Except.error Err.nameError := by
    norm_num [normalizeSingleRunVal, normalizeSingleRunCore, recHi,
      moduleBindsStatistics_false]
  have hrun : homeRankRun cfgEnabled2 [recHi, recLo]
      = Except.error Err.nameError := by
    apply homeRankRun_error
    rw [hfilter]
    exact homeKeyRun_cons_error _ _ _ _ hhi
  refine ⟨hrun, ?_⟩
  rintro ⟨rows, h⟩
  rw [hrun] at h
  exact Except.noConfusion h

/-- C1 (amended): neither ranker ever produces the claimed ordering,
because neither ever produces a nonempty ranking.  `home` returns a
ranking exactly when the eligibility filter of lines 376-377 leaves
nothing, and that ranking is empty; as soon as one record is
eligible, the first sort-key evaluation raises (`NameError` at
line 114, or `ZeroDivisionError` for a zero denominator) and the
request aborts.  `getTop` returns the empty list on an empty entity
list and raises `TypeError` on any nonempty one — its sort key
lambda takes two parameters.  Hence every ranking actually returned
by either ranker is empty, and descending order, name tie-breaking
and 1-based rank assignment are never exhibited on any pair of
entities. -/
theorem claim1_theorem (cfg : Config) (l : List Rec) :
    (l.filter eligibleRec = [] → homeRankRun cfg l = Except.ok []) ∧
    (l.filter eligibleRec ≠ [] → ∃ e, homeRankRun cfg l = Except.error e) ∧
    (∀ rows, homeRankRun cfg l = Except.ok rows → rows = []) ∧
    (∀ (names : List String) (num : ℕ),
       (names = [] → getTopRun names num = Except.ok []) ∧
       (names ≠ [] → getTopRun names num = Except.error Err.typeError)) := by
  have hempty := homeRankRun_of_filter_nil cfg l
  have herror : l.filter eligibleRec ≠ [] →
      ∃ e, homeRankRun cfg l = Except.error e := by
    intro hne
    obtain ⟨x, rest, hx⟩ := List.exists_cons_of_ne_nil hne
    obtain ⟨e, he⟩ := normalizeSingleRunVal_isError cfg x
    refine ⟨e, homeRankRun_error cfg l e ?_⟩
    rw [hx]
    exact homeKeyRun_cons_error _ _ _ _ he
  refine ⟨hempty, herror, ?_, ?_⟩
  · intro rows hrows
    by_cases hf : l.filter eligibleRec = []
    · rw [hempty hf] at hrows
      injection hrows with hrows
      exact hrows.symm
    · obtain ⟨e, he⟩ := herror hf
      rw [he] at hrows
      exact Except.noConfusion hrows
  · intro names num
    cases names with
    | nil =>
      refine ⟨fun _ => ?_, fun hne => absurd rfl hne⟩
      simp [getTopRun]
    | cons x xs =>
      exact ⟨fun hc => List.noConfusion hc, fun _ => rfl⟩

/-- Witness for C1's amended theorem: the eligible two-record request
aborts, and a concrete nonempty `getTop` input raises `TypeError`. -/
theorem claim1_witness :
    ([recHi, recLo].filter eligibleRec ≠ []) ∧
    (["usr1"] : List String) ≠ [] ∧
    (∃ e, homeRankRun cfgEnabled2 [recHi, recLo] = Except.error e) ∧
    getTopRun ["usr1"] 10 = Except.error Err.typeError := by
  have hfilter : [recHi, recLo].filter eligibleRec ≠ [] := by
    norm_num [eligibleRec, recHi, recLo, List.filter]
    simp
  have h := claim1_theorem cfgEnabled2 [recHi, recLo]
  exact ⟨hfilter, by simp, h.2.1 hfilter,
    (h.2.2.2 ["usr1"] 10).2 (by simp)⟩

/-! ## Claim C8 -/

/-- Every row of the `home` ranking carries the name of one of the
records it was built from. -/
theorem rankRows_name (cfg : Config) :
    ∀ (rs : List Rec) (k : ℕ) (row : RankRow), row ∈ rankRows cfg k rs →
      ∃ r ∈ rs, row.name = r.name
  | [], _, row, h => absurd h (List.not_mem_nil row)
  | r :: rest, k, row, h => by
    rcases List.mem_cons.mp h with h1 | h2
    · exact ⟨r, List.mem_cons_self _ _, by rw [h1]; rfl⟩
    · obtain ⟨r', hr', hname⟩ := rankRows_name cfg rest (k + 1) row h2
      exact ⟨r', List.mem_cons_of_mem _ hr', hname⟩

/-- C8 (counterexample): for an entity whose aggregated record has a
zero requested field, `getTop` does not return a ranking with that
entity absent — it returns no ranking at all (`TypeError` from its
two-parameter sort key), so the claimed filtered top-N output does
not exist. -/
theorem claim8_counterexample :
    ¬ ∃ out, getTopRun ["zeroreq"] 10 = Except.ok out := by
  rintro ⟨out, h⟩
  rw [show getTopRun ["zeroreq"] 10 = Except.error Err.typeError from rfl] at h
  exact Except.noConfusion h

/-- C8 (amended): the full ranking built by `home` filters out, before
scoring, every record with `memreq = 0` or `cpureq = 0` or
`timereq = 0` — such a record never appears in the sorted rows, and
every output row stems from an eligible input record; `getTop`,
however, applies no eligibility filter and raises `TypeError` on any
nonempty input, producing no top-N ranking at all. -/
theorem claim8_theorem (cfg : Config) (l : List Rec) (r : Rec)
    (hmem : r ∈ l) (hz : r.memreq = 0 ∨ r.cpureq = 0 ∨ r.timereq = 0) :
    r ∉ homeSorted cfg l ∧
    (∀ row ∈ homeRankPure cfg l,
       ∃ r' ∈ l, eligibleRec r' = true ∧ row.name = r'.name) ∧
    ∀ (names : List String) (num : ℕ), names ≠ [] →
      getTopRun names num = .error .typeError := by
  refine ⟨?_, ?_, ?_⟩
  · intro hin
    have hfil : r ∈ l.filter eligibleRec :=
      ((List.perm_insertionSort _ _).mem_iff).mp hin
    have helig : eligibleRec r = true := (List.mem_filter.mp hfil).2
    simp [eligibleRec] at helig
    rcases hz with h | h | h
    · exact helig.1.1 h
    · exact helig.1.2 h
    · exact helig.2 h
  · intro row hrow
    obtain ⟨r', hr', hname⟩ :=
      rankRows_name cfg (homeSorted cfg l) 0 row hrow
    have hfil : r' ∈ l.filter eligibleRec :=
      ((List.perm_insertionSort _ _).mem_iff).mp hr'
    exact ⟨r', (List.mem_filter.mp hfil).1, (List.mem_filter.mp hfil).2,
      hname⟩
  · intro names num hne
    cases names with
    | nil => exact absurd rfl hne
    | cons x xs => rfl

/-- Witness for C8's amended theorem at `recZeroReq` in the singleton
request. -/
theorem claim8_witness :
    recZeroReq ∈ [recZeroReq] ∧
    (recZeroReq.memreq = 0 ∨ recZeroReq.cpureq = 0 ∨
     recZeroReq.timereq = 0) ∧
    (recZeroReq ∉ homeSorted cfgEnabled2 [recZeroReq] ∧
     getTopRun ["zr"] 3 = .error .typeError) := by
  have h1 : recZeroReq ∈ [recZeroReq] := List.mem_singleton.mpr rfl
  have h2 : recZeroReq.memreq = 0 ∨ recZeroReq.cpureq = 0 ∨
      recZeroReq.timereq = 0 := Or.inl (by norm_num [recZeroReq])
  have h := claim8_theorem cfgEnabled2 [recZeroReq] recZeroReq h1 h2
  exact ⟨h1, h2, h.1, h.2.2 ["zr"] 3 (by simp)⟩

/-! ## Name resolver (`difflib.SequenceMatcher`, used at lines
520-524 of `viewAccount` and 630-632 of `viewUser`)

`SequenceMatcher(None, a, b).ratio()` is the Ratcliff–Obershelp
similarity `2 * M / (len(a) + len(b))` where `M` is the total size of
the matching blocks: the longest matching contiguous block (earliest
in `a`, then earliest in `b`, among maximal ones), plus, recursively,
the matching blocks of the pieces to its left and to its right.  The
model charges no junk: the strings compared here are entity names,
far below the 200-character threshold of difflib's autojunk
heuristic, and no explicit junk predicate is passed (`None`). -/

/-- Length of the common prefix of two character lists: the size of
the matching run starting at a given pair of positions. -/
def runLen : List Char → List Char → ℕ
  | a :: as, b :: bs => if a = b then runLen as bs + 1 else 0
  | _, _ => 0

/-- All candidate starting positions `(i, j)`, in lexicographic
order. -/
def pairList (la lb : ℕ) : List (ℕ × ℕ) :=
  (List.range la).flatMap (fun i => (List.range lb).map (fun j => (i, j)))

/-- One step of `find_longest_match`'s maximization: keep the best
block so far unless the block starting at `p` is strictly longer
(so among equal-length maximal blocks the lexicographically first
start wins, as difflib documents). -/
def lmStep (a b : List Char) (best : ℕ × ℕ × ℕ) (p : ℕ × ℕ) : ℕ × ℕ × ℕ :=
  if best.2.2 < runLen (a.drop p.1) (b.drop p.2) then
    (p.1, p.2, runLen (a.drop p.1) (b.drop p.2))
  else best

/-- `find_longest_match` over the whole of `a` and `b` (no junk):
returns `(i, j, size)` of the longest matching block, `(0, 0, 0)`
when there is none. -/
def longestMatch (a b : List Char) : ℕ × ℕ × ℕ :=
  (pairList a.length b.length).foldl (lmStep a b) (0, 0, 0)

/-- Total size of the matching blocks (`get_matching_blocks`):
recursion on the pieces left and right of the longest matching
block.  The recursion is fuelled; each recursive call strictly
shrinks the `a`-piece, so any fuel of at least `a.length + 1` —
in particular the `a.length + b.length` supplied by `matchTotal` —
computes the fixpoint. -/
def matchTotalF : ℕ → List Char → List Char → ℕ
  | 0, _, _ => 0
  | fuel + 1, a, b =>
    if (longestMatch a b).2.2 = 0 then 0
    else
      matchTotalF fuel (a.take (longestMatch a b).1)
          (b.take (longestMatch a b).2.1)
        + (longestMatch a b).2.2
        + matchTotalF fuel
            (a.drop ((longestMatch a b).1 + (longestMatch a b).2.2))
            (b.drop ((longestMatch a b).2.1 + (longestMatch a b).2.2))

/-- Total size of the matching blocks of `a` and `b`. -/
def matchTotal (a b : List Char) : ℕ :=
  matchTotalF (a.length + b.length) a b

/-- `SequenceMatcher.ratio()`: `2 * M / (len(a) + len(b))`, and `1.0`
for two empty sequences (difflib's `_calculate_ratio`). -/
def ratioChars (a b : List Char) : ℚ :=
  if a.length + b.length = 0 then 1
  else 2 * (matchTotal a b : ℚ) / ((a.length : ℚ) + (b.length : ℚ))

/-- `SequenceMatcher(None, query, candidate).ratio()` on strings. -/
def ratioStr (query c : String) : ℚ := ratioChars query.data c.data

/-- Python `max` over a list of similarity values (`ValueError`,
i.e. `none`, on an empty list). -/
def listMax : List ℚ → Option ℚ
  | [] => none
  | x :: xs => some ((listMax xs).elim x (max x))

/-- Python `list.index(v)`: index of the first occurrence of `v`. -/
def pyIndex : List ℚ → ℚ → ℕ
  | [], _ => 0
  | x :: xs, v => if x = v then 0 else pyIndex xs v + 1

/-- The name-resolution idiom of `viewAccount` (lines 523-524) and
`viewUser` (lines 631-632):
`similarities = [SequenceMatcher(None, search, i).ratio() for i in
candidates]` followed by
`candidates[similarities.index(max(similarities))]`. -/
def resolveBestMatch (query : String) (candidates : List String) :
    Option String :=
  match listMax (candidates.map (fun c => ratioStr query c)) with
  | none => none
  | some m => candidates[pyIndex (candidates.map (fun c => ratioStr query c)) m]?

/-! ### Properties of the matching-block machinery -/

theorem runLen_le_left : ∀ xs ys : List Char, runLen xs ys ≤ xs.length := by
  intro xs
  induction xs with
  | nil => intro ys; cases ys <;> simp [runLen]
  | cons a as ih =>
    intro ys
    cases ys with
    | nil => simp [runLen]
    | cons b bs =>
      rw [show runLen (a :: as) (b :: bs)
          = if a = b then runLen as bs + 1 else 0 from rfl]
      split_ifs
      · simpa using ih bs
      · exact Nat.zero_le _

theorem runLen_le_right : ∀ xs ys : List Char, runLen xs ys ≤ ys.length := by
  intro xs
  induction xs with
  | nil => intro ys; cases ys <;> simp [runLen]
  | cons a as ih =>
    intro ys
    cases ys with
    | nil => simp [runLen]
    | cons b bs =>
      rw [show runLen (a :: as) (b :: bs)
          = if a = b then runLen as bs + 1 else 0 from rfl]
      split_ifs
      · simpa using ih bs
      · exact Nat.zero_le _

/-- The run found by `runLen` is a genuine common block. -/
theorem runLen_take : ∀ xs ys : List Char,
    xs.take (runLen xs ys) = ys.take (runLen xs ys) := by
  intro xs
  induction xs with
  | nil => intro ys; cases ys <;> simp [runLen]
  | cons a as ih =>
    intro ys
    cases ys with
    | nil => simp [runLen]
    | cons b bs =>
      rw [show runLen (a :: as) (b :: bs)
          = if a = b then runLen as bs + 1 else 0 from rfl]
      split_ifs with h
      · rw [List.take_succ_cons, List.take_succ_cons, h, ih bs]
      · rfl

theorem runLen_self : ∀ xs : List Char, runLen xs xs = xs.length := by
  intro xs
  induction xs with
  | nil => rfl
  | cons a as ih =>
    rw [show runLen (a :: as) (a :: as)
        = if a = a then runLen as as + 1 else 0 from rfl]
    simp [ih]

/-- The invariant maintained by the maximization fold: a nonzero best
block lies inside both sequences and is a `runLen` value at its
start. -/
def LMInv (a b : List Char) (best : ℕ × ℕ × ℕ) : Prop :=
  best.2.2 ≠ 0 →
    best.1 + best.2.2 ≤ a.length ∧ best.2.1 + best.2.2 ≤ b.length ∧
    best.2.2 = runLen (a.drop best.1) (b.drop best.2.1)

theorem lmStep_inv (a b : List Char) (best : ℕ × ℕ × ℕ) (p : ℕ × ℕ)
    (h : LMInv a b best) : LMInv a b (lmStep a b best p) := by
  unfold lmStep
  split_ifs with hlt
  · intro hk0
    refine ⟨?_, ?_, rfl⟩
    · have h1 := runLen_le_left (a.drop p.1) (b.drop p.2)
      rw [List.length_drop] at h1
      simp only at hk0 ⊢
      omega
    · have h1 := runLen_le_right (a.drop p.1) (b.drop p.2)
      rw [List.length_drop] at h1
      simp only at hk0 ⊢
      omega
  · exact h

theorem foldl_lmStep_inv (a b : List Char) :
    ∀ (ps : List (ℕ × ℕ)) (best : ℕ × ℕ × ℕ), LMInv a b best →
      LMInv a b (ps.foldl (lmStep a b) best)
  | [], best, h => h
  | p :: rest, best, h =>
    foldl_lmStep_inv a b rest (lmStep a b best p) (lmStep_inv a b best p h)

/-- `find_longest_match` returns a genuine in-bounds block when its
size is nonzero. -/
theorem longestMatch_spec (a b : List Char)
    (h : (longestMatch a b).2.2 ≠ 0) :
    (longestMatch a b).1 + (longestMatch a b).2.2 ≤ a.length ∧
    (longestMatch a b).2.1 + (longestMatch a b).2.2 ≤ b.length ∧
    (longestMatch a b).2.2
      = runLen (a.drop (longestMatch a b).1)
          (b.drop (longestMatch a b).2.1) :=
  foldl_lmStep_inv a b (pairList a.length b.length) (0, 0, 0)
    (fun h0 => absurd rfl h0) h

/-- The best size never decreases along the fold. -/
theorem foldl_lmStep_ge_init (a b : List Char) :
    ∀ (ps : List (ℕ × ℕ)) (best : ℕ × ℕ × ℕ),
      best.2.2 ≤ (ps.foldl (lmStep a b) best).2.2
  | [], best => le_refl _
  | p :: rest, best => by
    refine le_trans ?_ (foldl_lmStep_ge_init a b rest (lmStep a b best p))
    unfold lmStep
    split_ifs with hlt
    · exact le_of_lt hlt
    · exact le_refl _

/-- The fold's result dominates the run length at every examined
position. -/
theorem foldl_lmStep_ge_mem (a b : List Char) :
    ∀ (ps : List (ℕ × ℕ)) (best : ℕ × ℕ × ℕ) (p : ℕ × ℕ), p ∈ ps →
      runLen (a.drop p.1) (b.drop p.2) ≤ (ps.foldl (lmStep a b) best).2.2
  | [], _, p, hp => absurd hp (List.not_mem_nil p)
  | q :: rest, best, p, hp => by
    rcases List.mem_cons.mp hp with h1 | h2
    · subst h1
      refine le_trans ?_ (foldl_lmStep_ge_init a b rest (lmStep a b best p))
      unfold lmStep
      split_ifs with hlt
      · exact le_refl _
      · exact le_of_not_lt hlt
    · exact foldl_lmStep_ge_mem a b rest (lmStep a b best q) p h2

theorem pairList_mem (la lb i j : ℕ) (hi : i < la) (hj : j < lb) :
    (i, j) ∈ pairList la lb := by
  unfold pairList
  rw [List.mem_flatMap]
  exact ⟨i, List.mem_range.mpr hi, List.mem_map.mpr
    ⟨j, List.mem_range.mpr hj, rfl⟩⟩

/-- On a nonempty sequence compared against itself,
`find_longest_match` finds the whole sequence at `(0, 0)`. -/
theorem longestMatch_self (a : List Char) (ha : a ≠ []) :
    longestMatch a a = (0, 0, a.length) := by
  have hlen : 0 < a.length := List.length_pos.mpr ha
  have hmem : (0, 0) ∈ pairList a.length a.length :=
    pairList_mem _ _ 0 0 hlen hlen
  have hge : a.length ≤ (longestMatch a a).2.2 := by
    have h := foldl_lmStep_ge_mem a a (pairList a.length a.length)
      (0, 0, 0) (0, 0) hmem
    simpa [runLen_self] using h
  have hk0 : (longestMatch a a).2.2 ≠ 0 := by omega
  obtain ⟨h1, h2, _⟩ := longestMatch_spec a a hk0
  have e3 : (longestMatch a a).2.2 = a.length := by omega
  have e1 : (longestMatch a a).1 = 0 := by omega
  have e2 : (longestMatch a a).2.1 = 0 := by omega
  calc longestMatch a a
      = ((longestMatch a a).1, (longestMatch a a).2.1,
         (longestMatch a a).2.2) := rfl
    _ = (0, 0, a.length) := by rw [e1, e2, e3]

theorem matchTotalF_nil_nil : ∀ fuel : ℕ, matchTotalF fuel [] [] = 0
  | 0 => rfl
  | _ + 1 => rfl

theorem matchTotalF_le_left :
    ∀ (fuel : ℕ) (a b : List Char), matchTotalF fuel a b ≤ a.length
  | 0, _, _ => Nat.zero_le _
  | fuel + 1, a, b => by
    rw [matchTotalF]
    split_ifs with hk
    · exact Nat.zero_le _
    · obtain ⟨h1, h2, _⟩ := longestMatch_spec a b hk
      have hL := matchTotalF_le_left fuel (a.take (longestMatch a b).1)
        (b.take (longestMatch a b).2.1)
      have hR := matchTotalF_le_left fuel
        (a.drop ((longestMatch a b).1 + (longestMatch a b).2.2))
        (b.drop ((longestMatch a b).2.1 + (longestMatch a b).2.2))
      rw [List.length_take] at hL
      rw [List.length_drop] at hR
      have hL' := le_trans hL (min_le_left _ _)
      omega

theorem matchTotalF_le_right :
    ∀ (fuel : ℕ) (a b : List Char), matchTotalF fuel a b ≤ b.length
  | 0, _, _ => Nat.zero_le _
  | fuel + 1, a, b => by
    rw [matchTotalF]
    split_ifs with hk
    · exact Nat.zero_le _
    · obtain ⟨h1, h2, _⟩ := longestMatch_spec a b hk
      have hL := matchTotalF_le_right fuel (a.take (longestMatch a b).1)
        (b.take (longestMatch a b).2.1)
      have hR := matchTotalF_le_right fuel
        (a.drop ((longestMatch a b).1 + (longestMatch a b).2.2))
        (b.drop ((longestMatch a b).2.1 + (longestMatch a b).2.2))
      rw [List.length_take] at hL
      rw [List.length_drop] at hR
      have hL' := le_trans hL (min_le_left _ _)
      omega

theorem matchTotalF_self :
    ∀ (fuel : ℕ) (a : List Char), a.length ≤ fuel →
      matchTotalF fuel a a = a.length
  | 0, a, h => by
    have h0 : a.length = 0 := Nat.le_zero.mp h
    rw [List.length_eq_zero] at h0
    subst h0
    rfl
  | fuel + 1, a, _ => by
    by_cases ha : a = []
    · subst ha
      exact matchTotalF_nil_nil _
    · have hlen : a.length ≠ 0 := fun h0 => ha (List.length_eq_zero.mp h0)
      rw [matchTotalF, longestMatch_self a ha]
      simp [hlen, matchTotalF_nil_nil, List.drop_length]

/-- A full match — total block size equal to both lengths — forces
the two sequences to be equal. -/
theorem matchTotalF_full :
    ∀ (fuel : ℕ) (a b : List Char),
      matchTotalF fuel a b = a.length → matchTotalF fuel a b = b.length →
      a = b
  | 0, a, b, ha, hb => by
    rw [show matchTotalF 0 a b = 0 from rfl] at ha hb
    rw [List.length_eq_zero.mp ha.symm, List.length_eq_zero.mp hb.symm]
  | fuel + 1, a, b, ha, hb => by
    rw [matchTotalF] at ha hb
    by_cases hk : (longestMatch a b).2.2 = 0
    · rw [if_pos hk] at ha hb
      rw [List.length_eq_zero.mp ha.symm, List.length_eq_zero.mp hb.symm]
    · rw [if_neg hk] at ha hb
      obtain ⟨h1, h2, hrun⟩ := longestMatch_spec a b hk
      have hLa := matchTotalF_le_left fuel (a.take (longestMatch a b).1)
        (b.take (longestMatch a b).2.1)
      have hLb := matchTotalF_le_right fuel (a.take (longestMatch a b).1)
        (b.take (longestMatch a b).2.1)
      have hRa := matchTotalF_le_left fuel
        (a.drop ((longestMatch a b).1 + (longestMatch a b).2.2))
        (b.drop ((longestMatch a b).2.1 + (longestMatch a b).2.2))
      have hRb := matchTotalF_le_right fuel
        (a.drop ((longestMatch a b).1 + (longestMatch a b).2.2))
        (b.drop ((longestMatch a b).2.1 + (longestMatch a b).2.2))
      rw [List.length_take] at hLa hLb
      rw [List.length_drop] at hRa hRb
      have hA : a.take (longestMatch a b).1 = b.take (longestMatch a b).2.1 :=
        matchTotalF_full fuel _ _
          (by rw [List.length_take]; omega)
          (by rw [List.length_take]; omega)
      have hB : a.drop ((longestMatch a b).1 + (longestMatch a b).2.2)
          = b.drop ((longestMatch a b).2.1 + (longestMatch a b).2.2) :=
        matchTotalF_full fuel _ _
          (by rw [List.length_drop]; omega)
          (by rw [List.length_drop]; omega)
      have hM : (a.drop (longestMatch a b).1).take (longestMatch a b).2.2
          = (b.drop (longestMatch a b).2.1).take (longestMatch a b).2.2 := by
        rw [hrun]
        exact runLen_take _ _
      calc a = a.take (longestMatch a b).1 ++ a.drop (longestMatch a b).1 :=
            (List.take_append_drop _ a).symm
        _ = a.take (longestMatch a b).1
              ++ ((a.drop (longestMatch a b).1).take (longestMatch a b).2.2
                  ++ (a.drop (longestMatch a b).1).drop (longestMatch a b).2.2)
            := by
              rw [List.take_append_drop, List.take_append_drop]
              exact (List.take_append_drop _ _).symm
        _ = b.take (longestMatch a b).2.1
              ++ ((b.drop (longestMatch a b).2.1).take (longestMatch a b).2.2
                  ++ (b.drop (longestMatch a b).2.1).drop (longestMatch a b).2.2)
            := by rw [hA, hM, List.drop_drop, List.drop_drop, hB]
        _ = b.take (longestMatch a b).2.1 ++ b.drop (longestMatch a b).2.1
            := by rw [List.take_append_drop]
        _ = b := List.take_append_drop _ b

/-- Total matching-block size against itself is the full length. -/
theorem matchTotal_self (a : List Char) : matchTotal a a = a.length :=
  matchTotalF_self _ a (Nat.le_add_right _ _)

theorem matchTotal_le_left (a b : List Char) : matchTotal a b ≤ a.length :=
  matchTotalF_le_left _ a b

theorem matchTotal_le_right (a b : List Char) : matchTotal a b ≤ b.length :=
  matchTotalF_le_right _ a b

/-! ### Properties of the similarity ratio -/

theorem ratioChars_nonneg (a b : List Char) : 0 ≤ ratioChars a b := by
  unfold ratioChars
  split_ifs
  · norm_num
  · positivity

theorem ratioChars_le_one (a b : List Char) : ratioChars a b ≤ 1 := by
  unfold ratioChars
  split_ifs with h
  · norm_num
  · have hm1 := matchTotal_le_left a b
    have hm2 := matchTotal_le_right a b
    have hpos : (0 : ℚ) < (a.length : ℚ) + (b.length : ℚ) := by
      have h0 : 0 < a.length + b.length := Nat.pos_of_ne_zero h
      exact_mod_cast h0
    rw [div_le_one hpos]
    have h2 : 2 * matchTotal a b ≤ a.length + b.length := by omega
    exact_mod_cast h2

theorem ratioChars_self (a : List Char) : ratioChars a a = 1 := by
  unfold ratioChars
  split_ifs with h
  · rfl
  · have hm := matchTotal_self a
    have hla : (a.length : ℚ) ≠ 0 := by
      have h0 : a.length ≠ 0 := by omega
      exact_mod_cast h0
    rw [hm]
    field_simp
    ring

/-- A similarity ratio of exactly `1.0` forces the two sequences to be
identical. -/
theorem ratioChars_eq_one (a b : List Char) (h : ratioChars a b = 1) :
    a = b := by
  unfold ratioChars at h
  split_ifs at h with h0
  · have ha : a.length = 0 := by omega
    have hb : b.length = 0 := by omega
    rw [List.length_eq_zero.mp ha, List.length_eq_zero.mp hb]
  · have hm1 := matchTotal_le_left a b
    have hm2 := matchTotal_le_right a b
    have hpos : (0 : ℚ) < (a.length : ℚ) + (b.length : ℚ) := by
      have hp : 0 < a.length + b.length := Nat.pos_of_ne_zero h0
      exact_mod_cast hp
    rw [div_eq_one_iff_eq (ne_of_gt hpos)] at h
    have hnat : 2 * matchTotal a b = a.length + b.length := by
      exact_mod_cast h
    have e1 : matchTotal a b = a.length := by omega
    have e2 : matchTotal a b = b.length := by omega
    exact matchTotalF_full (a.length + b.length) a b e1 e2

/-! ### Properties of `max` and `index` -/

theorem listMax_isSome : ∀ l : List ℚ, l ≠ [] → ∃ m, listMax l = some m
  | [], h => absurd rfl h
  | _ :: _, _ => ⟨_, rfl⟩

theorem listMax_mem : ∀ (l : List ℚ) (m : ℚ), listMax l = some m → m ∈ l
  | [], m, h => by simp [listMax] at h
  | x :: xs, m, h => by
    rw [show listMax (x :: xs) = some ((listMax xs).elim x (max x)) from rfl]
      at h
    injection h with h
    cases hxs : listMax xs with
    | none =>
      rw [hxs] at h
      exact h ▸ List.mem_cons_self _ _
    | some m' =>
      rw [hxs] at h
      rcases max_choice x m' with hc | hc

      · exact (hc.symm.trans h) ▸ List.mem_cons_self _ _
      · exact List.mem_cons_of_mem _
          ((hc.symm.trans h) ▸ listMax_mem xs m' hxs)

theorem listMax_ge : ∀ (l : List ℚ) (m y : ℚ),
    listMax l = some m → y ∈ l → y ≤ m
  | [], _, y, _, hy => absurd hy (List.not_mem_nil y)
  | x :: xs, m, y, h, hy => by
    rw [show listMax (x :: xs) = some ((listMax xs).elim x (max x)) from rfl]
      at h
    injection h with h
    rcases List.mem_cons.mp hy with h1 | h2
    · subst h1
      cases hxs : listMax xs with
      | none =>
        rw [hxs] at h
        simp only [Option.elim] at h
        exact h.le
      | some m' =>
        rw [hxs] at h
        simp only [Option.elim] at h
        exact h ▸ le_max_left y m'
    · have hne : xs ≠ [] := List.ne_nil_of_mem h2
      obtain ⟨m', hm'⟩ := listMax_isSome xs hne
      rw [hm'] at h
      exact le_trans (listMax_ge xs m' y hm' h2) (h ▸ le_max_right x m')

theorem pyIndex_get : ∀ (xs : List ℚ) (v : ℚ), v ∈ xs →
    xs[pyIndex xs v]? = some v
  | [], v, h => absurd h (List.not_mem_nil v)
  | x :: xs, v, h => by
    rw [show pyIndex (x :: xs) v
        = if x = v then 0 else pyIndex xs v + 1 from rfl]
    split_ifs with he
    · simp [he]
    · have hv : v ∈ xs := by
        rcases List.mem_cons.mp h with h1 | h2
        · exact absurd h1.symm he
        · exact h2
      simpa using pyIndex_get xs v hv

theorem pyIndex_first : ∀ (xs : List ℚ) (v : ℚ) (j : ℕ),
    j < pyIndex xs v → xs[j]? ≠ some v
  | [], _, j, h => by simp [pyIndex] at h
  | x :: xs, v, j, h => by
    rw [show pyIndex (x :: xs) v
        = if x = v then 0 else pyIndex xs v + 1 from rfl] at h
    split_ifs at h with he
    · exact absurd h (Nat.not_lt_zero j)
    · cases j with
      | zero =>
        intro hc
        simp at hc
        exact he hc
      | succ j =>
        simpa using pyIndex_first xs v j (by omega)

/-! ## Claim C9 -/

/-- C9 (confirmed): for every nonempty candidate list and every query,
the name-resolution idiom of `viewAccount` / `viewUser` returns a
candidate attaining the maximum similarity ratio to the query; the
ratio lies in `[0, 1]` with `1` exactly for an identical string, so
when the query itself is among the candidates it is returned; and the
returned candidate is the *first* one attaining the maximum — every
earlier candidate has a strictly smaller ratio. -/
theorem claim9_theorem (query : String) (cs : List String) (hne : cs ≠ []) :
    ∃ best,
      resolveBestMatch query cs = some best ∧
      best ∈ cs ∧
      (∀ c ∈ cs, ratioStr query c ≤ ratioStr query best) ∧
      (∀ c : String, 0 ≤ ratioStr query c ∧ ratioStr query c ≤ 1) ∧
      ratioStr query query = 1 ∧
      (∃ i : ℕ, cs[i]? = some best ∧
        ∀ j, j < i → ∀ c, cs[j]? = some c →
          ratioStr query c < ratioStr query best) ∧
      (query ∈ cs → best = query) := by
  set sims := cs.map (fun c => ratioStr query c) with hsims
  have hsne : sims ≠ [] := by
    simpa [hsims] using hne
  obtain ⟨m, hm⟩ := listMax_isSome sims hsne
  have hmem : m ∈ sims := listMax_mem _ m hm
  have hget : sims[pyIndex sims m]? = some m := pyIndex_get _ m hmem
  have hilt : pyIndex sims m < sims.length := by
    by_contra hge
    rw [List.getElem?_eq_none (le_of_not_lt hge)] at hget
    exact Option.noConfusion hget
  have hiltc : pyIndex sims m < cs.length := by
    rw [hsims, List.length_map] at hilt
    exact hilt
  obtain ⟨best, hbest⟩ : ∃ best, cs[pyIndex sims m]? = some best :=
    ⟨_, List.getElem?_eq_getElem hiltc⟩
  have hfb : ratioStr query best = m := by
    rw [hsims, List.getElem?_map, hbest] at hget
    simpa using hget
  have hresolve : resolveBestMatch query cs = some best := by
    unfold resolveBestMatch
    rw [← hsims, hm]
    exact hbest
  have hmax : ∀ c ∈ cs, ratioStr query c ≤ ratioStr query best := by
    intro c hc
    rw [hfb]
    refine listMax_ge _ m _ hm ?_
    rw [hsims]
    exact List.mem_map_of_mem _ hc
  have hbounds : ∀ c : String,
      0 ≤ ratioStr query c ∧ ratioStr query c ≤ 1 :=
    fun _ => ⟨ratioChars_nonneg _ _, ratioChars_le_one _ _⟩
  have hself : ratioStr query query = 1 := ratioChars_self _
  refine ⟨best, hresolve, List.getElem?_mem hbest, hmax, hbounds, hself,
    ⟨pyIndex sims m, hbest, ?_⟩, ?_⟩
  · intro j hj c hc
    have hne' : sims[j]? ≠ some m := pyIndex_first _ m j hj
    rw [hsims, List.getElem?_map, hc] at hne'
    simp only [Option.map_some'] at hne'
    have hnem : ratioStr query c ≠ m := fun h => hne' (by rw [h])
    rw [hfb]
    refine lt_of_le_of_ne ?_ hnem
    refine listMax_ge _ m _ hm ?_
    rw [hsims]
    exact List.mem_map_of_mem _ (List.getElem?_mem hc)
  · intro hq
    have h1 : (1 : ℚ) ≤ m := by
      have hqmem : ratioStr query query ∈ sims := by
        rw [hsims]
        exact List.mem_map_of_mem _ hq
      have := listMax_ge _ m (ratioStr query query) hm hqmem
      rw [hself] at this
      exact this
    have hm1 : m = 1 := le_antisymm (hfb ▸ ratioChars_le_one _ _) h1
    have hone : ratioChars query.data best.data = 1 := by
      rw [show ratioChars query.data best.data = ratioStr query best from rfl,
        hfb, hm1]
    exact (String.ext (ratioChars_eq_one _ _ hone)).symm

set_option maxRecDepth 100000 in
example : resolveBestMatch "alice" ["alice", "alicia", "bob"]
    = some "alice" := by
  have h1 : ratioStr "alice" "alice" = 1 := by
    norm_num [ratioStr, ratioChars,
      show matchTotal "alice".data "alice".data = 5 from rfl,
      show ("alice".data).length = 5 from rfl]
  have h2 : ratioStr "alice" "alicia" = 8/11 := by
    norm_num [ratioStr, ratioChars,
      show matchTotal "alice".data "alicia".data = 4 from rfl,
      show ("alice".data).length = 5 from rfl,
      show ("alicia".data).length = 6 from rfl]
  have h3 : ratioStr "alice" "bob" = 0 := by
    norm_num [ratioStr, ratioChars,
      show matchTotal "alice".data "bob".data = 0 from rfl,
      show ("alice".data).length = 5 from rfl,
      show ("bob".data).length = 3 from rfl]
  unfold resolveBestMatch
  norm_num [h1, h2, h3, listMax, pyIndex, max_def]

set_option maxRecDepth 100000 in
example : resolveBestMatch "alicee" ["alicia", "bob", "carol"]
    = some "alicia" := by
  have h1 : ratioStr "alicee" "alicia" = 2/3 := by
    norm_num [ratioStr, ratioChars,
      show matchTotal "alicee".data "alicia".data = 4 from rfl,
      show ("alicee".data).length = 6 from rfl,
      show ("alicia".data).length = 6 from rfl]
  have h2 : ratioStr "alicee" "bob" = 0 := by
    norm_num [ratioStr, ratioChars,
      show matchTotal "alicee".data "bob".data = 0 from rfl,
      show ("alicee".data).length = 6 from rfl,
      show ("bob".data).length = 3 from rfl]
  have h3 : ratioStr "alicee" "carol" = 4/11 := by
    norm_num [ratioStr, ratioChars,
      show matchTotal "alicee".data "carol".data = 2 from rfl,
      show ("alicee".data).length = 6 from rfl,
      show ("carol".data).length = 5 from rfl]
  unfold resolveBestMatch
  norm_num [h1, h2, h3, listMax, pyIndex, max_def]

/-- Witness for C9 at the spec's own example
`resolveBestMatch("alice", ["alice", "alicia", "bob"])`. -/
theorem claim9_witness :
    (["alice", "alicia", "bob"] : List String) ≠ [] ∧
    (∃ best,
      resolveBestMatch "alice" ["alice", "alicia", "bob"] = some best ∧
      best ∈ ["alice", "alicia", "bob"] ∧
      (∀ c ∈ ["alice", "alicia", "bob"],
        ratioStr "alice" c ≤ ratioStr "alice" best) ∧
      (∀ c : String, 0 ≤ ratioStr "alice" c ∧ ratioStr "alice" c ≤ 1) ∧
      ratioStr "alice" "alice" = 1 ∧
      (∃ i : ℕ, (["alice", "alicia", "bob"] : List String)[i]? = some best ∧
        ∀ j, j < i → ∀ c, (["alice", "alicia", "bob"] :
            List String)[j]? = some c →
          ratioStr "alice" c < ratioStr "alice" best) ∧
      ("alice" ∈ ["alice", "alicia", "bob"] → best = "alice")) :=
  ⟨by simp, claim9_theorem "alice" ["alice", "alicia", "bob"] (by simp)⟩

end Doppler
